import Mathlib

/-!
Shallow embedding of the core extraction pipeline of `src/main.rs`
(covid-situation-reports): line windowing, line coalescing, record
batching, record filtering, and the partition / schema mapping into
region and country outputs.  Lines are modelled as lists of characters
(Rust `&str` / `String` slices); machine integers (`u32`) are modelled
as `Nat` together with the explicit `< 2^32` range check that
`str::parse::<u32>` performs.  Fallible code (Rust panics and `Result`)
is modelled with `Except String`.
-/

namespace CovidReports

/-- A text line, modelled as its character list. -/
abbrev Line := List Char

/-- Character list of a string literal. -/
def str (s : String) : Line := s.data

/-- Whitespace test used to model Rust `str::trim` and the regex class
for whitespace on the character range occurring in this pipeline. -/
def isWs (c : Char) : Bool := c.isWhitespace

/-- Model of Rust `str::trim`: remove leading and trailing whitespace. -/
def trimL (s : Line) : Line :=
  ((s.dropWhile isWs).reverse.dropWhile isWs).reverse

/-- Boolean substring test, modelling Rust `str::contains(&str)`. -/
def hasSub (needle : Line) : Line → Bool
  | [] => needle.isEmpty
  | c :: rest => needle.isPrefixOf (c :: rest) || hasSub needle rest

/-- Fuelled form of Rust `str::replace(needle, repl)`: replace all
non-overlapping occurrences, scanning left to right.  The fuel only
bounds recursion; `replaceAll` supplies enough for the whole line. -/
def replaceFuel (needle repl : Line) : Nat → Line → Line
  | _, [] => []
  | 0, s => s
  | fuel + 1, c :: rest =>
    if needle.isPrefixOf (c :: rest) && !needle.isEmpty then
      repl ++ replaceFuel needle repl fuel ((c :: rest).drop needle.length)
    else
      c :: replaceFuel needle repl fuel rest

/-- Model of Rust `str::replace(needle, repl)`. -/
def replaceAll (needle repl s : Line) : Line :=
  replaceFuel needle repl s.length s

/-- Model of Rust `str::split(|c| c == '(' || c == ')')` specialised to a
character predicate: split into the pieces between separator characters
(Rust's `split` yields `n + 1` pieces for `n` separators, empties
included). -/
def splitOn (p : Char → Bool) : Line → List Line
  | [] => [[]]
  | c :: rest =>
    if p c then [] :: splitOn p rest
    else
      match splitOn p rest with
      | [] => [[c]]
      | piece :: more => (c :: piece) :: more

/-- Decimal value of a digit list, as accumulated by `u32::from_str`. -/
def digitsVal (ds : Line) : Nat :=
  ds.foldl (fun a c => a * 10 + (c.toNat - 48)) 0

/-- Model of Rust `str::parse::<u32>`: an optional leading `'+'`, then one
or more ascii digits, rejecting the empty string and values exceeding
`u32::MAX`. -/
def parseU32 (s : Line) : Option Nat :=
  let ds := if s.head? = some '+' then s.tail else s
  if ds.isEmpty then none
  else if ds.all Char.isDigit then
    if digitsVal ds < 4294967296 then some (digitsVal ds) else none
  else none

/-- Matcher for the `cases_re` regex of `main.rs`:
`^\s*\d+(\s+\(\s*\d+\s*\))?\s*$`.  The regex is unambiguous (digits,
whitespace and parentheses are disjoint), so a single deterministic scan
decides it. -/
def cases_re_match (l : Line) : Bool :=
  let r := l.dropWhile isWs
  let ds := r.takeWhile Char.isDigit
  let r := r.dropWhile Char.isDigit
  if ds.isEmpty then false
  else if r.isEmpty then true
  else
    let ws := r.takeWhile isWs
    let r2 := r.dropWhile isWs
    if r2.isEmpty then true
    else if ws.isEmpty then false
    else if r2.head? = some '(' then
      let r4 := r2.tail.dropWhile isWs
      let ds2 := r4.takeWhile Char.isDigit
      let r5 := r4.dropWhile Char.isDigit
      if ds2.isEmpty then false
      else if (r5.dropWhile isWs).head? = some ')' then
        (((r5.dropWhile isWs).tail).dropWhile isWs).isEmpty
      else false
    else false

/-- Parse one count-cell line into a count group, as done inside the
batching closure of `main.rs`: a line containing `'('` is split on the
parenthesis characters, the first two pieces are trimmed and parsed;
otherwise the whole (untrimmed) line is parsed as a single integer.  A
parse failure is the fatal `failed to parse` panic. -/
def parseCount (l : Line) : Except String (List Nat) :=
  if l.contains '(' then
    ((splitOn (fun c => c == '(' || c == ')') l).take 2).mapM fun c =>
      match parseU32 (trimL c) with
      | some v => .ok v
      | none => .error ("failed to parse: \"" ++ String.mk c ++ "\"")
  else
    match parseU32 l with
    | some v => .ok [v]
    | none => .error ("failed to parse: \"" ++ String.mk l ++ "\"")

/-- The merge test of the `coalesce` step in `main.rs`:
`cur.starts_with("(") && cases_re.is_match(&prev) && !prev.contains('(')`. -/
def mergeCond (prev cur : Line) : Bool :=
  (str "(").isPrefixOf cur && cases_re_match prev && !(prev.contains '(')

/-- Accumulator loop of `itertools::coalesce`: merge the current line into
the accumulator when `mergeCond` holds, else emit the accumulator. -/
def coalesceGo (acc : Line) : List Line → List Line
  | [] => [acc]
  | cur :: rest =>
    if mergeCond acc cur then coalesceGo (acc ++ ' ' :: cur) rest
    else acc :: coalesceGo cur rest

/-- The line coalescer of `main.rs` (`.coalesce(...)`). -/
def coalesce : List Line → List Line
  | [] => []
  | x :: xs => coalesceGo x xs

/-- An intermediate row: an entity name and its count groups. -/
structure Record where
  name : Line
  counts : List (List Nat)
deriving DecidableEq

/-- Preamble fragment filter of the batching closure: drop fragments
containing `"Region"`, `" - "` or `"Unimplemented?"`. -/
def keepFragment (l : Line) : Bool :=
  !(hasSub (str "Region") l || hasSub (str " - ") l
    || hasSub (str "Unimplemented?") l)

/-- The exact header label of the name column. -/
def headerLabel : Line := str "Country/Territory/Area"

/-- Join fragments with single spaces (Rust `Vec::join(" ")`). -/
def joinSpace (ls : List Line) : Line := List.intercalate [' '] ls

/-- Name resolution of the batching closure: if any kept fragment equals
the header label, take the last fragment (`preamble.pop().unwrap()`),
otherwise join all fragments with spaces. -/
def resolveName (kept : List Line) : Line :=
  if kept.any (fun el => el == headerLabel) then kept.getLastD []
  else joinSpace kept

/-- The footnote-marker glyph pair whose trailing character is stripped
(the two-character literal passed to `ends_with` in `main.rs`). -/
def footnoteMarker : Line := [Char.ofNat 0x0E22, Char.ofNat 0x0E07]

/-- Name cleanup of the batching closure: strip a leading `')'`, strip
one trailing character after the footnote marker, trim, then apply the
fixed literal substring substitutions in source order. -/
def cleanupName (n : Line) : Line :=
  let n := if n.head? = some ')' then n.drop 1 else n
  let n := if footnoteMarker.isSuffixOf n then n.dropLast else n
  let n := trimL n
  let n := replaceAll (str "Total") (str "China") n
  let n := replaceAll (str "Uni ted") (str "United") n
  let n := replaceAll (str "Finlan d") (str "Finland") n
  let n := replaceAll (str "Jian gsu") (str "Jiangsu") n
  replaceAll (str "South - ") [] n

/-- Preamble of one batching step: the lines before the first count-cell
line (`take_while_ref(|line| !cases_re.is_match(line))`). -/
def batchPre (ls : List Line) : List Line :=
  ls.takeWhile fun l => !(cases_re_match l)

/-- Resolved and cleaned name of one batching step. -/
def batchName (ls : List Line) : Line :=
  cleanupName (resolveName ((batchPre ls).filter keepFragment))

/-- Count-cell lines of one batching step: after the preamble, the lines
while they match `cases_re`. -/
def batchCountLines (ls : List Line) : List Line :=
  (ls.drop (batchPre ls).length).takeWhile cases_re_match

/-- Lines remaining after one batching step consumed its preamble and its
count-cell lines. -/
def batchRest (ls : List Line) : List Line :=
  (ls.drop (batchPre ls).length).drop (batchCountLines ls).length

/-- Fuelled record batcher (`itertools::batching` over the closure of
`main.rs`).  One step consumes a preamble and a run of count-cell lines;
if the cleaned name or the count list is empty the closure returns
`None`, which ends the batching iterator.  Emitting a record consumes at
least one line, so fuel `ls.length` always suffices. -/
def batchingFuel : Nat → List Line → Except String (List Record)
  | 0, _ => .ok []
  | fuel + 1, ls =>
    match (batchCountLines ls).mapM parseCount with
    | .error e => .error e
    | .ok counts =>
      if (batchName ls).isEmpty || counts.isEmpty then .ok []
      else
        match batchingFuel fuel (batchRest ls) with
        | .error e => .error e
        | .ok recs => .ok (⟨batchName ls, counts⟩ :: recs)

/-- The record batcher of `main.rs`. -/
def batching (ls : List Line) : Except String (List Record) :=
  batchingFuel ls.length ls

/-- Summary label dropped by the record filter. -/
def subtotalLabel : Line := str "Subtotal for all regions"

/-- Summary label dropped by the record filter. -/
def grandTotalLabel : Line := str "Grand total"

/-- The designated country's name. -/
def chinaName : Line := str "China"

/-- Predicate of the record filter in `main.rs`:
`counts.len() >= 6 && preamble != "Subtotal for all regions" && preamble != "Grand total"`. -/
def recordKeep (r : Record) : Bool :=
  decide (6 ≤ r.counts.length) && r.name != subtotalLabel
    && r.name != grandTotalLabel

/-- The record filter stage. -/
def recordFilter (rs : List Record) : List Record := rs.filter recordKeep

/-- Output schema for a sub-national region (`china_regions` in
`main.rs`). -/
structure RegionOutput where
  name : Line
  population : Nat
  today_confirmed_cases : Nat
  today_suspected_cases : Nat
  today_deaths : Nat
  total_confirmed_cases : Nat
  total_deaths : Nat
deriving DecidableEq

/-- Output schema for a country/territory (`countries` in `main.rs`);
`none` models a JSON `null`. -/
structure CountryOutput where
  name : Line
  today_confirmed_cases : Nat
  today_suspected_cases : Option Nat
  total_confirmed_cases : Nat
  today_likely_place_of_exposure_china : Option Nat
  total_likely_place_of_exposure_china : Option Nat
  today_likely_place_of_exposure_in_country : Option Nat
  total_likely_place_of_exposure_in_country : Option Nat
  today_likely_place_of_exposure_other : Option Nat
  total_likely_place_of_exposure_other : Option Nat
  today_likely_place_of_exposure_unknown : Option Nat
  total_likely_place_of_exposure_unknown : Option Nat
  today_deaths : Nat
  total_deaths : Nat
  regions : Option (List RegionOutput)
deriving DecidableEq

/-- Indexing `counts[i][j]` of `main.rs`; an out-of-range index is the
fatal Rust index panic. -/
def groupAt (counts : List (List Nat)) (i j : Nat) : Except String Nat :=
  match counts[i]? with
  | none => .error "index out of bounds"
  | some g =>
    match g[j]? with
    | none => .error "index out of bounds"
    | some v => .ok v

/-- Region mapping of `main.rs` (`china_regions`): the six single-valued
fields are `counts[0][0] .. counts[5][0]`. -/
def china_region (r : Record) : Except String RegionOutput := do
  let population ← groupAt r.counts 0 0
  let today_confirmed ← groupAt r.counts 1 0
  let today_suspected ← groupAt r.counts 2 0
  let today_deaths ← groupAt r.counts 3 0
  let total_confirmed ← groupAt r.counts 4 0
  let total_deaths ← groupAt r.counts 5 0
  return { name := r.name, population := population,
           today_confirmed_cases := today_confirmed,
           today_suspected_cases := today_suspected,
           today_deaths := today_deaths,
           total_confirmed_cases := total_confirmed,
           total_deaths := total_deaths }

/-- Country mapping of `main.rs` (`countries`): the designated country
reuses the region-style single-valued layout, gets `null` exposure
fields and nests the accumulated region list; every other record uses
the pair-valued layout with `counts[0]` in (total, today) order. -/
def countryOutput (regs : List RegionOutput) (r : Record) :
    Except String CountryOutput :=
  if r.name == chinaName then do
    let today_confirmed ← groupAt r.counts 1 0
    let today_suspected ← groupAt r.counts 2 0
    let total_confirmed ← groupAt r.counts 4 0
    let today_deaths ← groupAt r.counts 3 0
    let total_deaths ← groupAt r.counts 5 0
    return { name := chinaName,
             today_confirmed_cases := today_confirmed,
             today_suspected_cases := some today_suspected,
             total_confirmed_cases := total_confirmed,
             today_likely_place_of_exposure_china := none,
             total_likely_place_of_exposure_china := none,
             today_likely_place_of_exposure_in_country := none,
             total_likely_place_of_exposure_in_country := none,
             today_likely_place_of_exposure_other := none,
             total_likely_place_of_exposure_other := none,
             today_likely_place_of_exposure_unknown := none,
             total_likely_place_of_exposure_unknown := none,
             today_deaths := today_deaths,
             total_deaths := total_deaths,
             regions := some regs }
  else do
    let today_confirmed ← groupAt r.counts 0 1
    let total_confirmed ← groupAt r.counts 0 0
    let today_china ← groupAt r.counts 1 1
    let total_china ← groupAt r.counts 1 0
    let today_in_country ← groupAt r.counts 3 1
    let total_in_country ← groupAt r.counts 3 0
    let today_other ← groupAt r.counts 2 1
    let total_other ← groupAt r.counts 2 0
    let today_unknown ← groupAt r.counts 4 1
    let total_unknown ← groupAt r.counts 4 0
    let today_deaths ← groupAt r.counts 5 1
    let total_deaths ← groupAt r.counts 5 0
    return { name := r.name,
             today_confirmed_cases := today_confirmed,
             today_suspected_cases := none,
             total_confirmed_cases := total_confirmed,
             today_likely_place_of_exposure_china := some today_china,
             total_likely_place_of_exposure_china := some total_china,
             today_likely_place_of_exposure_in_country := some today_in_country,
             total_likely_place_of_exposure_in_country := some total_in_country,
             today_likely_place_of_exposure_other := some today_other,
             total_likely_place_of_exposure_other := some total_other,
             today_likely_place_of_exposure_unknown := some today_unknown,
             total_likely_place_of_exposure_unknown := some total_unknown,
             today_deaths := today_deaths,
             total_deaths := total_deaths,
             regions := none }

/-- The start-of-table sentinel line. -/
def hubeiLine : Line := str "Hubei"

/-- The end-of-table sentinel line. -/
def endSentinel : Line := str "Case classifications are"

/-- Line window selection of `main.rs`: trim, drop blank lines, skip
until the start sentinel, take until the end sentinel. -/
def windowLines (raw : List Line) : List Line :=
  (((raw.map trimL).filter fun l => !l.isEmpty).dropWhile
      fun l => l != hubeiLine).takeWhile fun l => l != endSentinel

/-- The whole extraction pipeline of `main.rs`, from the extracted line
sequence to the final country list. -/
def pipeline (raw : List Line) : Except String (List CountryOutput) := do
  let recs ← batching (coalesce (windowLines raw))
  let recs := recordFilter recs
  let chinaRecs := recs.takeWhile fun r => r.name != chinaName
  let countryRecs := recs.dropWhile fun r => r.name != chinaName
  let regs ← chinaRecs.mapM china_region
  countryRecs.mapM (countryOutput regs)

deriving instance DecidableEq for Except

/-- Concrete input of the spec's §8 scenario for the header-label rule. -/
def scenarioLines : List Line :=
  [str "Hubei", str "58500000", str "100", str "5", str "2", str "67800",
   str "3000", str "Guangdong", str "113000000", str "50", str "1", str "0",
   str "1400", str "7", str "Country/Territory/Area", str "China",
   str "67800 (100)", str "...", str "Case classifications are"]

/-- Concrete input containing a mid-stream noise row (its only preamble
fragment contains `"Region"` and is filtered away) followed by a fully
well-formed `Guangdong` row. -/
def noiseLines : List Line :=
  [str "Hubei", str "1", str "2", str "3", str "4", str "5", str "6",
   str "Western Pacific Region", str "9", str "9", str "9", str "9",
   str "9", str "9",
   str "Guangdong", str "1", str "2", str "3", str "4", str "5", str "6"]

/-- Concrete region-style record used in witnesses. -/
def hubeiRec : Record := ⟨str "Hubei", [[1], [2], [3], [4], [5], [6]]⟩

/-- Concrete designated-country record used in witnesses. -/
def chinaRec : Record := ⟨chinaName, [[9], [8], [7], [6], [5], [4]]⟩

/-- Concrete pair-valued country record used in witnesses. -/
def japanRec : Record :=
  ⟨str "Japan", [[1, 2], [3, 4], [5, 6], [7, 8], [9, 10], [11, 12]]⟩

/-- No adjacent pair of the line list satisfies the coalescer's merge
condition (the line list is a fixed point of the coalescer). -/
def noMergeList : List Line → Prop
  | [] => True
  | [_] => True
  | a :: b :: rest => mergeCond a b = false ∧ noMergeList (b :: rest)

section Helpers

variable {α : Type _} {p : α → Bool}

theorem takeWhile_all : ∀ {a : List α}, (∀ x ∈ a, p x = true) →
    a.takeWhile p = a
  | [], _ => rfl
  | x :: a, h => by
    simp only [List.takeWhile_cons, h x (by simp), if_true]
    exact congrArg (x :: ·) (takeWhile_all fun y hy => h y (by simp [hy]))

theorem dropWhile_all : ∀ {a : List α}, (∀ x ∈ a, p x = true) →
    a.dropWhile p = []
  | [], _ => rfl
  | x :: a, h => by
    simp only [List.dropWhile_cons, h x (by simp), if_true]
    exact dropWhile_all fun y hy => h y (by simp [hy])

theorem takeWhile_app_all : ∀ (a : List α) (b : List α),
    (∀ x ∈ a, p x = true) → (a ++ b).takeWhile p = a ++ b.takeWhile p
  | [], b, _ => rfl
  | x :: a, b, h => by
    simp only [List.cons_append, List.takeWhile_cons, h x (by simp), if_true]
    exact congrArg (x :: ·) (takeWhile_app_all a b fun y hy => h y (by simp [hy]))

theorem dropWhile_app_all : ∀ (a : List α) (b : List α),
    (∀ x ∈ a, p x = true) → (a ++ b).dropWhile p = b.dropWhile p
  | [], b, _ => rfl
  | x :: a, b, h => by
    simp only [List.cons_append, List.dropWhile_cons, h x (by simp), if_true]
    exact dropWhile_app_all a b fun y hy => h y (by simp [hy])

theorem dropWhile_none : ∀ {a : List α}, (∀ x ∈ a, p x = false) →
    a.dropWhile p = a
  | [], _ => rfl
  | x :: a, h => by
    simp only [List.dropWhile_cons, h x (by simp), Bool.false_eq_true,
      if_false]

theorem takeWhile_app_stop (a : List α) (c : α) (b : List α)
    (h : ∀ x ∈ a, p x = true) (hc : p c = false) :
    (a ++ c :: b).takeWhile p = a := by
  rw [takeWhile_app_all a (c :: b) h, List.takeWhile_cons, hc]
  simp

theorem dropWhile_app_stop (a : List α) (c : α) (b : List α)
    (h : ∀ x ∈ a, p x = true) (hc : p c = false) :
    (a ++ c :: b).dropWhile p = c :: b := by
  rw [dropWhile_app_all a (c :: b) h, List.dropWhile_cons, hc]
  simp

end Helpers

/-- Claim C7: every Record surviving the record filter has at least six
CountGroups and a name distinct from both fixed summary labels, and the
filter preserves the relative order of the surviving Records (its output
is a sublist of its input). -/
theorem claim_C7 :
    (∀ rs : List Record, ∀ r ∈ recordFilter rs,
      6 ≤ r.counts.length ∧ r.name ≠ subtotalLabel ∧ r.name ≠ grandTotalLabel)
    ∧ (∀ rs : List Record, (recordFilter rs).Sublist rs) := by
  constructor
  · intro rs r hr
    have hk : recordKeep r = true := (List.mem_filter.mp hr).2
    simp only [recordKeep, Bool.and_eq_true, bne_iff_ne,
      decide_eq_true_eq] at hk
    exact ⟨hk.1.1, hk.1.2, hk.2⟩
  · intro rs
    exact List.filter_sublist rs

/-- Witness for C7 at a concrete record list. -/
theorem claim_C7_witness :
    6 ≤ (Record.mk (str "Hubei") [[1], [2], [3], [4], [5], [6]]).counts.length
    ∧ (Record.mk (str "Hubei") [[1], [2], [3], [4], [5], [6]]).name ≠ subtotalLabel
    ∧ (Record.mk (str "Hubei") [[1], [2], [3], [4], [5], [6]]).name ≠ grandTotalLabel :=
  claim_C7.1 [⟨str "Hubei", [[1], [2], [3], [4], [5], [6]]⟩]
    ⟨str "Hubei", [[1], [2], [3], [4], [5], [6]]⟩ (by decide)

theorem ok_bind {A B : Type} (a : A) (f : A → Except String B) :
    (Except.ok a >>= f) = f a := rfl

theorem groupAt_ok {counts : List (List Nat)} {i j : Nat} {g : List Nat}
    {v : Nat} (hg : counts[i]? = some g) (hv : g[j]? = some v) :
    groupAt counts i j = .ok v := by
  simp [groupAt, hg, hv]

/-- Counterexample to claim C3: a pre-partition Record whose CountGroup
at index 0 has two elements is mapped successfully (no error is
signaled); the group is silently truncated to its first element, which
becomes the `population` field. -/
theorem claim_C3_cex :
    china_region ⟨str "Hubei", [[1, 2], [3], [4], [5], [6], [7]]⟩ =
      .ok ⟨str "Hubei", 1, 3, 4, 5, 6, 7⟩ := by decide

/-- Claim C3 (amended): when mapping a pre-partition Record to
RegionOutput, each of CountGroups[0..6) contributes its FIRST element to
the fixed field order {population, today_confirmed, today_suspected,
today_deaths, total_confirmed, total_deaths}; a multi-element group is
silently truncated to its first element rather than signaled, and only a
missing index (fewer than six groups, or an empty group) is an error. -/
theorem claim_C3 (r : Record) (g0 g1 g2 g3 g4 g5 : List Nat)
    (v0 v1 v2 v3 v4 v5 : Nat)
    (h0 : r.counts[0]? = some g0) (e0 : g0[0]? = some v0)
    (h1 : r.counts[1]? = some g1) (e1 : g1[0]? = some v1)
    (h2 : r.counts[2]? = some g2) (e2 : g2[0]? = some v2)
    (h3 : r.counts[3]? = some g3) (e3 : g3[0]? = some v3)
    (h4 : r.counts[4]? = some g4) (e4 : g4[0]? = some v4)
    (h5 : r.counts[5]? = some g5) (e5 : g5[0]? = some v5) :
    china_region r = .ok ⟨r.name, v0, v1, v2, v3, v4, v5⟩ := by
  rw [china_region]
  rw [groupAt_ok h0 e0, ok_bind, groupAt_ok h1 e1, ok_bind,
    groupAt_ok h2 e2, ok_bind, groupAt_ok h3 e3, ok_bind,
    groupAt_ok h4 e4, ok_bind, groupAt_ok h5 e5, ok_bind]
  rfl

/-- Witness for C3 at a Record whose first group has two elements. -/
theorem claim_C3_witness :
    china_region ⟨str "Anhui", [[10, 20], [1], [2], [3], [4], [5]]⟩ =
      .ok ⟨str "Anhui", 10, 1, 2, 3, 4, 5⟩ :=
  claim_C3 ⟨str "Anhui", [[10, 20], [1], [2], [3], [4], [5]]⟩
    [10, 20] [1] [2] [3] [4] [5] 10 1 2 3 4 5
    (by decide) (by decide) (by decide) (by decide) (by decide) (by decide)
    (by decide) (by decide) (by decide) (by decide) (by decide) (by decide)

/-- Claim C5: for a Record whose name is not the designated country's,
the CountryOutput mapping uses the pair-valued layout with reversed
order in group 0 (`total_confirmed = counts[0][0]`,
`today_confirmed = counts[0][1]`); the exposure pairs come from group 1
(china), group 2 (other), group 3 (in-country) and group 4 (unknown),
each read as (total, today) = (group[i][0], group[i][1]); group 5 gives
(total_deaths, today_deaths); and `today_suspected` is always null. -/
theorem claim_C5 (regs : List RegionOutput) (r : Record)
    (g0 g1 g2 g3 g4 g5 : List Nat) (t0 t1 t2 t3 t4 t5 d0 d1 d2 d3 d4 d5 : Nat)
    (hname : r.name ≠ chinaName)
    (h0 : r.counts[0]? = some g0) (ht0 : g0[0]? = some t0) (hd0 : g0[1]? = some d0)
    (h1 : r.counts[1]? = some g1) (ht1 : g1[0]? = some t1) (hd1 : g1[1]? = some d1)
    (h2 : r.counts[2]? = some g2) (ht2 : g2[0]? = some t2) (hd2 : g2[1]? = some d2)
    (h3 : r.counts[3]? = some g3) (ht3 : g3[0]? = some t3) (hd3 : g3[1]? = some d3)
    (h4 : r.counts[4]? = some g4) (ht4 : g4[0]? = some t4) (hd4 : g4[1]? = some d4)
    (h5 : r.counts[5]? = some g5) (ht5 : g5[0]? = some t5) (hd5 : g5[1]? = some d5) :
    countryOutput regs r = .ok
      { name := r.name,
        today_confirmed_cases := d0,
        today_suspected_cases := none,
        total_confirmed_cases := t0,
        today_likely_place_of_exposure_china := some d1,
        total_likely_place_of_exposure_china := some t1,
        today_likely_place_of_exposure_in_country := some d3,
        total_likely_place_of_exposure_in_country := some t3,
        today_likely_place_of_exposure_other := some d2,
        total_likely_place_of_exposure_other := some t2,
        today_likely_place_of_exposure_unknown := some d4,
        total_likely_place_of_exposure_unknown := some t4,
        today_deaths := d5,
        total_deaths := t5,
        regions := none } := by
  have hb : (r.name == chinaName) = false := beq_eq_false_iff_ne.mpr hname
  rw [countryOutput, hb]
  rw [if_neg (by simp)]
  rw [groupAt_ok h0 hd0, ok_bind, groupAt_ok h0 ht0, ok_bind,
    groupAt_ok h1 hd1, ok_bind, groupAt_ok h1 ht1, ok_bind,
    groupAt_ok h3 hd3, ok_bind, groupAt_ok h3 ht3, ok_bind,
    groupAt_ok h2 hd2, ok_bind, groupAt_ok h2 ht2, ok_bind,
    groupAt_ok h4 hd4, ok_bind, groupAt_ok h4 ht4, ok_bind,
    groupAt_ok h5 hd5, ok_bind, groupAt_ok h5 ht5, ok_bind]
  rfl

/-- Witness for C5 at a concrete non-designated record with six
two-element groups. -/
theorem claim_C5_witness :
    countryOutput [] ⟨str "Japan", [[100, 3], [80, 2], [10, 1], [5, 0], [5, 0], [2, 1]]⟩
      = .ok
      { name := str "Japan",
        today_confirmed_cases := 3,
        today_suspected_cases := none,
        total_confirmed_cases := 100,
        today_likely_place_of_exposure_china := some 2,
        total_likely_place_of_exposure_china := some 80,
        today_likely_place_of_exposure_in_country := some 0,
        total_likely_place_of_exposure_in_country := some 5,
        today_likely_place_of_exposure_other := some 1,
        total_likely_place_of_exposure_other := some 10,
        today_likely_place_of_exposure_unknown := some 0,
        total_likely_place_of_exposure_unknown := some 5,
        today_deaths := 1,
        total_deaths := 2,
        regions := none } :=
  claim_C5 [] ⟨str "Japan", [[100, 3], [80, 2], [10, 1], [5, 0], [5, 0], [2, 1]]⟩
    [100, 3] [80, 2] [10, 1] [5, 0] [5, 0] [2, 1]
    100 80 10 5 5 2 3 2 1 0 0 1
    (by decide) (by decide) (by decide) (by decide) (by decide) (by decide)
    (by decide) (by decide) (by decide) (by decide) (by decide) (by decide)
    (by decide) (by decide) (by decide) (by decide) (by decide) (by decide)
    (by decide)

theorem bind_ok_destruct {A B : Type} {x : Except String A}
    {f : A → Except String B} {b : B} (h : x >>= f = .ok b) :
    ∃ a, x = .ok a ∧ f a = .ok b := by
  cases x with
  | error e => simp [Bind.bind, Except.bind] at h
  | ok a => exact ⟨a, rfl, h⟩

theorem countryOutput_regions (regs : List RegionOutput) (r : Record)
    (out : CountryOutput) (h : countryOutput regs r = .ok out) :
    out.regions = if r.name == chinaName then some regs else none := by
  rw [countryOutput] at h
  by_cases hb : (r.name == chinaName) = true
  · rw [if_pos hb] at h
    rw [if_pos hb]
    obtain ⟨a1, -, h⟩ := bind_ok_destruct h
    obtain ⟨a2, -, h⟩ := bind_ok_destruct h
    obtain ⟨a3, -, h⟩ := bind_ok_destruct h
    obtain ⟨a4, -, h⟩ := bind_ok_destruct h
    obtain ⟨a5, -, h⟩ := bind_ok_destruct h
    cases h
    rfl
  · rw [if_neg hb] at h
    rw [if_neg hb]
    obtain ⟨a1, -, h⟩ := bind_ok_destruct h
    obtain ⟨a2, -, h⟩ := bind_ok_destruct h
    obtain ⟨a3, -, h⟩ := bind_ok_destruct h
    obtain ⟨a4, -, h⟩ := bind_ok_destruct h
    obtain ⟨a5, -, h⟩ := bind_ok_destruct h
    obtain ⟨a6, -, h⟩ := bind_ok_destruct h
    obtain ⟨a7, -, h⟩ := bind_ok_destruct h
    obtain ⟨a8, -, h⟩ := bind_ok_destruct h
    obtain ⟨a9, -, h⟩ := bind_ok_destruct h
    obtain ⟨a10, -, h⟩ := bind_ok_destruct h
    obtain ⟨a11, -, h⟩ := bind_ok_destruct h
    obtain ⟨a12, -, h⟩ := bind_ok_destruct h
    cases h
    rfl

/-- Claim C4: for a filtered Record sequence splitting as
`before ++ c :: after` where `c` is the first Record named exactly as
the designated country, the partition used by the pipeline takes exactly
`before` as the region side and `c :: after` (the designated country
included) as the country side; and every successfully mapped
CountryOutput nests the accumulated region list exactly when the record
is named as the designated country, all others getting a null `regions`
field. -/
theorem claim_C4 (before after : List Record) (c : Record)
    (hb : ∀ r ∈ before, r.name ≠ chinaName) (hc : c.name = chinaName) :
    ((before ++ c :: after).takeWhile (fun r => r.name != chinaName) = before)
    ∧ ((before ++ c :: after).dropWhile (fun r => r.name != chinaName) = c :: after)
    ∧ (∀ regs out, countryOutput regs c = .ok out → out.regions = some regs)
    ∧ (∀ regs r out, r.name ≠ chinaName → countryOutput regs r = .ok out →
        out.regions = none) := by
  have hpb : ∀ r ∈ before, (r.name != chinaName) = true := by
    intro r hr
    simpa [bne_iff_ne] using hb r hr
  have hpc : (c.name != chinaName) = false := by simp [hc]
  refine ⟨takeWhile_app_stop before c after hpb hpc,
    dropWhile_app_stop before c after hpb hpc, ?_, ?_⟩
  · intro regs out h
    have := countryOutput_regions regs c out h
    simpa [hc] using this
  · intro regs r out hr h
    have := countryOutput_regions regs r out h
    simpa [beq_eq_false_iff_ne.mpr hr] using this

/-- Witness for C4: a concrete three-record sequence (one region record,
the designated country, one further country). -/
theorem claim_C4_witness :
    (([hubeiRec] ++ chinaRec :: [japanRec]).takeWhile
        (fun r => r.name != chinaName) = [hubeiRec])
    ∧ (([hubeiRec] ++ chinaRec :: [japanRec]).dropWhile
        (fun r => r.name != chinaName) = chinaRec :: [japanRec]) :=
  ⟨(claim_C4 [hubeiRec] [japanRec] chinaRec (by decide) (by decide)).1,
   (claim_C4 [hubeiRec] [japanRec] chinaRec (by decide) (by decide)).2.1⟩

/-- Counterexample to claim C1: an extracted line sequence without the
`"Hubei"` start sentinel does NOT fail with a "table start marker not
found" error (no such error exists anywhere in the pipeline); the run
succeeds and emits the empty result set. -/
theorem claim_C1_cex : pipeline [str "no table here"] = .ok [] := by decide

/-- Claim C1 (amended): if the start-of-table sentinel line `"Hubei"`
never appears in the extracted line sequence, the whole window becomes
empty, every later stage processes an empty sequence, and the run
SUCCEEDS with the empty result set; no error is raised. -/
theorem claim_C1 (raw : List Line)
    (h : hubeiLine ∉ (raw.map trimL).filter fun l => !l.isEmpty) :
    pipeline raw = .ok [] := by
  have hwin : windowLines raw = [] := by
    rw [windowLines]
    have hdrop :
        (((raw.map trimL).filter fun l => !l.isEmpty).dropWhile
          fun l => l != hubeiLine) = [] := by
      refine dropWhile_all fun x hx => ?_
      have hne : x ≠ hubeiLine := fun he => h (he ▸ hx)
      simpa [bne_iff_ne] using hne
    rw [hdrop]
    rfl
  rw [pipeline, hwin]
  rfl

/-- Witness for C1 at a concrete sentinel-free input. -/
theorem claim_C1_witness : pipeline [str "narrative only"] = .ok [] :=
  claim_C1 [str "narrative only"] (by decide)

/-- Counterexample to claim C2: in `noiseLines`, a mid-stream noise row
(whose single preamble fragment contains `"Region"` and is dropped,
leaving an empty name) makes the batcher terminate: the well-formed
`Guangdong` row that follows it is NOT emitted, and the output contains
only the `Hubei` record. -/
theorem claim_C2_cex : batching noiseLines = .ok [hubeiRec] := by decide

/-- Claim C2 (amended): a candidate row whose resolved name is empty or
for which no CountGroups were accumulated is discarded without emitting
a Record, but the batching closure returns `None` there, which ENDS the
batching iterator: no later Record of the input is emitted either
(whatever lines remain are dropped), rather than batching continuing at
the next line. -/
theorem claim_C2 (ls : List Line) (gs : List (List Nat))
    (hparse : (batchCountLines ls).mapM parseCount = .ok gs)
    (hnoise : (batchName ls).isEmpty = true ∨ gs = []) :
    batching ls = .ok [] := by
  rw [batching]
  cases ls with
  | nil => rfl
  | cons c rest =>
    show batchingFuel (rest.length + 1) (c :: rest) = .ok []
    rw [batchingFuel, hparse]
    have hcond : ((batchName (c :: rest)).isEmpty || gs.isEmpty) = true := by
      rcases hnoise with hn | hn
      · simp [hn]
      · simp [hn]
    simp [hcond]

/-- Witness for C2: a lone filtered-away preamble fragment followed by a
count line parses, resolves to an empty name, and batching yields no
record at all. -/
theorem claim_C2_witness :
    batching [str "Western Pacific Region", str "9"] = .ok [] :=
  claim_C2 [str "Western Pacific Region", str "9"] [[9]]
    (by decide) (Or.inl (by decide))

/-- Claim C9: during name resolution, if any remaining preamble fragment
equals the header label `"Country/Territory/Area"`, the batcher takes
only the last fragment as the name, otherwise it joins all remaining
fragments with single spaces; in particular, on the spec's scenario
input the record after `Guangdong` is resolved to the name `"China"`
alone (with its single two-element group), not to a concatenation. -/
theorem claim_C9 :
    (∀ ps : List Line, ps.any (fun el => el == headerLabel) = true →
      resolveName ps = ps.getLastD [])
    ∧ (∀ ps : List Line, ps.any (fun el => el == headerLabel) = false →
      resolveName ps = joinSpace ps)
    ∧ batching (coalesce (windowLines scenarioLines)) =
      .ok [⟨str "Hubei", [[58500000], [100], [5], [2], [67800], [3000]]⟩,
           ⟨str "Guangdong", [[113000000], [50], [1], [0], [1400], [7]]⟩,
           ⟨str "China", [[67800, 100]]⟩] := by
  refine ⟨?_, ?_, by decide⟩
  · intro ps h
    simp [resolveName, h]
  · intro ps h
    simp [resolveName, h]

/-- Witness for C9 at the preamble of the spec's scenario. -/
theorem claim_C9_witness :
    resolveName [str "Country/Territory/Area", str "China"] = str "China" :=
  claim_C9.1 [str "Country/Territory/Area", str "China"] (by decide)

theorem lparen_pre_cons (d : Char) (l : Line) :
    (str "(").isPrefixOf (d :: l) = ('(' == d) := by
  show (['('] : Line).isPrefixOf (d :: l) = ('(' == d)
  simp [List.isPrefixOf_cons₂]

theorem coalesceGo_shape : ∀ (xs : List Line) (a : Line),
    ∃ s t, coalesceGo a xs = (a ++ s) :: t ∧
      (s ≠ [] → cases_re_match a = true)
  | [], a => ⟨[], [], by simp [coalesceGo], fun h => absurd rfl h⟩
  | c :: rest, a => by
    by_cases hm : mergeCond a c = true
    · obtain ⟨s', t', he, -⟩ := coalesceGo_shape rest (a ++ ' ' :: c)
      refine ⟨' ' :: c ++ s', t', ?_, ?_⟩
      · rw [coalesceGo, if_pos hm, he]
        simp
      · intro _
        simp only [mergeCond, Bool.and_eq_true] at hm
        exact hm.1.2
    · refine ⟨[], coalesceGo c rest, ?_, fun h => absurd rfl h⟩
      rw [coalesceGo, if_neg hm]
      simp

theorem mergeCond_app_false {a c s : Line} (hm : mergeCond a c = false)
    (himp : s ≠ [] → cases_re_match c = true) :
    mergeCond a (c ++ s) = false := by
  by_contra hne
  have ht : mergeCond a (c ++ s) = true := by
    cases h : mergeCond a (c ++ s)
    · exact absurd h hne
    · rfl
  simp only [mergeCond, Bool.and_eq_true] at ht
  obtain ⟨⟨hp, hq⟩, hr⟩ := ht
  cases c with
  | nil =>
    have hs : s ≠ [] := by
      intro he
      rw [List.nil_append, he] at hp
      exact absurd hp (by decide)
    have : cases_re_match ([] : Line) = true := himp hs
    exact absurd this (by decide)
  | cons d c' =>
    have hd : ('(' == d) = true := by
      have := hp
      rw [List.cons_append, lparen_pre_cons] at this
      exact this
    have hpc : (str "(").isPrefixOf (d :: c') = true := by
      rw [lparen_pre_cons, hd]
    have : mergeCond a (d :: c') = true := by
      simp only [mergeCond, Bool.and_eq_true]
      exact ⟨⟨hpc, hq⟩, hr⟩
    rw [hm] at this
    exact absurd this (by decide)

theorem coalesceGo_noMerge : ∀ (xs : List Line) (a : Line),
    noMergeList (coalesceGo a xs)
  | [], a => by simp [coalesceGo, noMergeList]
  | c :: rest, a => by
    by_cases hm : mergeCond a c = true
    · rw [coalesceGo, if_pos hm]
      exact coalesceGo_noMerge rest (a ++ ' ' :: c)
    · rw [coalesceGo, if_neg hm]
      have hm' : mergeCond a c = false := by
        cases h : mergeCond a c
        · rfl
        · exact absurd h hm
      obtain ⟨s, t, he, himp⟩ := coalesceGo_shape rest c
      have hnm := coalesceGo_noMerge rest c
      rw [he] at hnm ⊢
      exact ⟨mergeCond_app_false hm' himp, hnm⟩

theorem coalesceGo_of_noMerge : ∀ (xs : List Line) (x : Line),
    noMergeList (x :: xs) → coalesceGo x xs = x :: xs
  | [], x, _ => rfl
  | c :: rest, x, h => by
    obtain ⟨hm, hrest⟩ := h
    rw [coalesceGo, if_neg (by simp [hm])]
    exact congrArg (x :: ·) (coalesceGo_of_noMerge rest c hrest)

theorem coalesce_of_noMerge (l : List Line) (h : noMergeList l) :
    coalesce l = l := by
  cases l with
  | nil => rfl
  | cons x xs =>
    rw [coalesce]
    exact coalesceGo_of_noMerge xs x h

/-- Claim C8: the line coalescer is idempotent; feeding its output back
through the coalescer returns the same sequence, so a merged line is
never merged again. -/
theorem claim_C8 (ls : List Line) : coalesce (coalesce ls) = coalesce ls := by
  cases ls with
  | nil => rfl
  | cons x xs =>
    rw [coalesce]
    exact coalesce_of_noMerge (coalesceGo x xs) (coalesceGo_noMerge xs x)

/-- Witness for C8 at a line pair that the first pass merges. -/
theorem claim_C8_witness :
    coalesce (coalesce [str "50", str "(100)"]) =
      coalesce [str "50", str "(100)"] :=
  claim_C8 [str "50", str "(100)"]

theorem isPrefixOf_cons₂_destruct {q b : Char} {p bs : Line}
    (h : (q :: p).isPrefixOf (b :: bs) = true) :
    q = b ∧ p.isPrefixOf bs = true := by
  simp only [List.isPrefixOf_cons₂, Bool.and_eq_true, beq_iff_eq] at h
  exact h

theorem total_drop_head (i : Nat) (hi : i < 5) :
    ∃ ch t2, (str "Total").drop i = ch :: t2 ∧ ('C' == ch) = false ∧
      t2 = (str "Total").drop (i + 1) := by
  interval_cases i
  · exact ⟨'T', _, rfl, by decide, rfl⟩
  · exact ⟨'o', _, rfl, by decide, rfl⟩
  · exact ⟨'t', _, rfl, by decide, rfl⟩
  · exact ⟨'a', _, rfl, by decide, rfl⟩
  · exact ⟨'l', _, rfl, by decide, rfl⟩

theorem total_not_pre (x : Char) (hx : ('T' == x) = false) (t : Line) :
    (str "Total").isPrefixOf (x :: t) = false := by
  show (['T', 'o', 't', 'a', 'l'] : Line).isPrefixOf (x :: t) = false
  simp [List.isPrefixOf_cons₂, hx]

theorem replace_pre_reflect : ∀ (fuel : Nat) (s : Line) (i : Nat) (p : Line),
    s.length ≤ fuel → i < 5 → p ≠ [] →
    p.isPrefixOf ((str "Total").drop i) = true →
    p.isPrefixOf (replaceFuel (str "Total") (str "China") fuel s) = true →
    p.isPrefixOf s = true
  | 0, s, i, p, hlen, hi, hp, hpre, hout => by
    have hs : s = [] := List.length_eq_zero.mp (Nat.le_zero.mp hlen)
    subst hs
    cases p with
    | nil => exact absurd rfl hp
    | cons q p' => exact absurd hout (by simp [replaceFuel])
  | fuel + 1, s, i, p, hlen, hi, hp, hpre, hout => by
    cases s with
    | nil =>
      cases p with
      | nil => exact absurd rfl hp
      | cons q p' => exact absurd hout (by simp [replaceFuel])
    | cons c rest =>
      obtain ⟨ch, t2, hdrop, hch, ht2⟩ := total_drop_head i hi
      by_cases hb :
          ((str "Total").isPrefixOf (c :: rest) && !(str "Total").isEmpty) = true
      · rw [show replaceFuel (str "Total") (str "China") (fuel + 1) (c :: rest) =
            if (str "Total").isPrefixOf (c :: rest) && !(str "Total").isEmpty then
              str "China" ++
                replaceFuel (str "Total") (str "China") fuel
                  ((c :: rest).drop (str "Total").length)
            else c :: replaceFuel (str "Total") (str "China") fuel rest
            from rfl, if_pos hb] at hout
        cases p with
        | nil => exact absurd rfl hp
        | cons q p' =>
          have he : str "China" ++
              replaceFuel (str "Total") (str "China") fuel
                ((c :: rest).drop (str "Total").length) =
              'C' :: (['h', 'i', 'n', 'a'] ++
                replaceFuel (str "Total") (str "China") fuel
                  ((c :: rest).drop (str "Total").length)) := rfl
          rw [he] at hout
          obtain ⟨hqC, -⟩ := isPrefixOf_cons₂_destruct hout
          rw [hdrop] at hpre
          obtain ⟨hqch, -⟩ := isPrefixOf_cons₂_destruct hpre
          have : ('C' == ch) = true := by
            rw [← hqC, ← hqch]
            exact beq_self_eq_true q
          rw [hch] at this
          exact absurd this (by decide)
      · rw [show replaceFuel (str "Total") (str "China") (fuel + 1) (c :: rest) =
            if (str "Total").isPrefixOf (c :: rest) && !(str "Total").isEmpty then
              str "China" ++
                replaceFuel (str "Total") (str "China") fuel
                  ((c :: rest).drop (str "Total").length)
            else c :: replaceFuel (str "Total") (str "China") fuel rest
            from rfl, if_neg hb] at hout
        cases p with
        | nil => exact absurd rfl hp
        | cons q p' =>
          obtain ⟨hqc, hp'⟩ := isPrefixOf_cons₂_destruct hout
          rw [hdrop] at hpre
          obtain ⟨hqch, hp'drop⟩ := isPrefixOf_cons₂_destruct hpre
          subst hqc
          cases p' with
          | nil => simp [List.isPrefixOf_cons₂]
          | cons q2 p'' =>
            have hlen' : rest.length ≤ fuel := by
              simpa using Nat.succ_le_succ_iff.mp hlen
            by_cases hi2 : i + 1 < 5
            · have hrec := replace_pre_reflect fuel rest (i + 1) (q2 :: p'')
                hlen' hi2 (by simp) (ht2 ▸ hp'drop) hp'
              simp [List.isPrefixOf_cons₂, hrec]
            · have h5 : (str "Total").drop (i + 1) = [] := by
                apply List.drop_eq_nil_of_le
                show 5 ≤ i + 1
                omega
              rw [ht2, h5] at hp'drop
              exact absurd hp'drop (by simp)

theorem replace_no_total : ∀ (fuel : Nat) (s : Line), s.length ≤ fuel →
    hasSub (str "Total") (replaceFuel (str "Total") (str "China") fuel s) = false
  | 0, s, h => by
    have hs : s = [] := List.length_eq_zero.mp (Nat.le_zero.mp h)
    subst hs
    decide
  | fuel + 1, s, h => by
    cases s with
    | nil =>
      rw [show replaceFuel (str "Total") (str "China") (fuel + 1) ([] : Line)
          = [] from rfl]
      decide
    | cons c rest =>
      by_cases hb :
          ((str "Total").isPrefixOf (c :: rest) && !(str "Total").isEmpty) = true
      · rw [show replaceFuel (str "Total") (str "China") (fuel + 1) (c :: rest) =
            if (str "Total").isPrefixOf (c :: rest) && !(str "Total").isEmpty then
              str "China" ++
                replaceFuel (str "Total") (str "China") fuel
                  ((c :: rest).drop (str "Total").length)
            else c :: replaceFuel (str "Total") (str "China") fuel rest
            from rfl, if_pos hb]
        have hdlen : ((c :: rest).drop (str "Total").length).length ≤ fuel := by
          rw [List.length_drop, show (str "Total").length = 5 from rfl]
          have : (c :: rest).length ≤ fuel + 1 := h
          simp only [List.length_cons] at this ⊢
          omega
        have hx := replace_no_total fuel ((c :: rest).drop (str "Total").length) hdlen
        show hasSub (str "Total")
          ('C' :: 'h' :: 'i' :: 'n' :: 'a' ::
            replaceFuel (str "Total") (str "China") fuel
              ((c :: rest).drop (str "Total").length)) = false
        simp only [hasSub, hx, Bool.or_false,
          total_not_pre 'C' (by decide), total_not_pre 'h' (by decide),
          total_not_pre 'i' (by decide), total_not_pre 'n' (by decide),
          total_not_pre 'a' (by decide), Bool.false_or]
      · rw [show replaceFuel (str "Total") (str "China") (fuel + 1) (c :: rest) =
            if (str "Total").isPrefixOf (c :: rest) && !(str "Total").isEmpty then
              str "China" ++
                replaceFuel (str "Total") (str "China") fuel
                  ((c :: rest).drop (str "Total").length)
            else c :: replaceFuel (str "Total") (str "China") fuel rest
            from rfl, if_neg hb]
        have hlen' : rest.length ≤ fuel := by
          simpa using Nat.succ_le_succ_iff.mp h
        have hx := replace_no_total fuel rest hlen'
        simp only [hasSub, hx, Bool.or_false]
        cases hpre : (str "Total").isPrefixOf
            (c :: replaceFuel (str "Total") (str "China") fuel rest) with
        | false => rfl
        | true =>
          exfalso
          have hpre' : (('T' :: ['o', 't', 'a', 'l']) : Line).isPrefixOf
              (c :: replaceFuel (str "Total") (str "China") fuel rest) = true := hpre
          obtain ⟨hqc, hrest⟩ := isPrefixOf_cons₂_destruct hpre'
          have hor := replace_pre_reflect fuel rest 1 ['o', 't', 'a', 'l']
            hlen' (by omega) (by simp) (by decide) hrest
          have hT : (str "Total").isPrefixOf (c :: rest) = true := by
            rw [← hqc]
            show (('T' :: ['o', 't', 'a', 'l']) : Line).isPrefixOf ('T' :: rest) = true
            simp [List.isPrefixOf_cons₂, hor]
          exact hb (by rw [hT]; decide)

/-- Claim C10: name cleanup replaces every occurrence of the exact
substring `"Total"` with `"China"` in every Record's resolved name, not
only on the grand-total row: no occurrence of `"Total"` survives the
substitution for any input name, a mid-table row named
`"Northern Total"` is emitted as `"Northern China"`, and the matching is
case-sensitive (`"Grand total"` is untouched). -/
theorem claim_C10 :
    (∀ s : Line,
      hasSub (str "Total") (replaceAll (str "Total") (str "China") s) = false)
    ∧ batching [str "Northern Total", str "1", str "2", str "3", str "4",
        str "5", str "6"] =
      .ok [⟨str "Northern China", [[1], [2], [3], [4], [5], [6]]⟩]
    ∧ replaceAll (str "Total") (str "China") (str "Grand total") =
      str "Grand total" := by
  refine ⟨?_, by decide, by decide⟩
  intro s
  exact replace_no_total s.length s le_rfl

/-- Witness for C10 at a name holding two occurrences of the substring. -/
theorem claim_C10_witness :
    hasSub (str "Total")
      (replaceAll (str "Total") (str "China") (str "Total x Total")) = false :=
  claim_C10.1 (str "Total x Total")

theorem digit_not_ws (c : Char) (h : c.isDigit = true) : isWs c = false := by
  rw [isWs]
  cases hw : c.isWhitespace
  · rfl
  · exfalso
    simp only [Char.isWhitespace, Bool.or_eq_true, decide_eq_true_eq] at hw
    rcases hw with ((h1 | h1) | h1) | h1 <;> subst h1 <;>
      exact absurd h (by decide)

theorem digit_ne (c x : Char) (h : c.isDigit = true) (hx : x.isDigit = false) :
    (c == x) = false := by
  cases hb : c == x
  · rfl
  · exfalso
    have he : c = x := eq_of_beq hb
    rw [he] at h
    rw [h] at hx
    exact absurd hx (by decide)

theorem ne_digit (x c : Char) (hx : x.isDigit = false) (h : c.isDigit = true) :
    (x == c) = false := by
  cases hb : x == c
  · rfl
  · exfalso
    have he : x = c := eq_of_beq hb
    rw [← he] at h
    rw [h] at hx
    exact absurd hx (by decide)

theorem digit_ne_plus (c : Char) (h : c.isDigit = true) : ¬(c = '+') :=
  fun he => by rw [he] at h; exact absurd h (by decide)

theorem digits_contains_paren (ds : Line) (h : ds.all Char.isDigit = true) :
    ds.contains '(' = false := by
  induction ds with
  | nil => rfl
  | cons d ds' ih =>
    simp only [List.all_cons, Bool.and_eq_true] at h
    show List.elem '(' (d :: ds') = false
    rw [List.elem]
    rw [ne_digit '(' d (by decide) h.1]
    exact ih h.2

theorem contains_of_mem (l : Line) (c : Char) (h : c ∈ l) :
    l.contains c = true := by
  induction l with
  | nil => exact absurd h (by simp)
  | cons d rest ih =>
    show List.elem c (d :: rest) = true
    rw [List.elem]
    cases hb : c == d
    · rcases List.mem_cons.mp h with he | hm
      · rw [he] at hb
        rw [beq_self_eq_true] at hb
        exact absurd hb (by simp)
      · exact ih hm
    · rfl

theorem parseU32_digits (ds : Line) (hne : ds ≠ [])
    (hdig : ds.all Char.isDigit = true) (hlt : digitsVal ds < 4294967296) :
    parseU32 ds = some (digitsVal ds) := by
  cases ds with
  | nil => exact absurd rfl hne
  | cons d ds' =>
    have hd : d.isDigit = true := by
      simp only [List.all_cons, Bool.and_eq_true] at hdig
      exact hdig.1
    have hplus : ¬(d = '+') := digit_ne_plus d hd
    have hdig' : ∀ x ∈ d :: ds', x.isDigit = true := by
      simpa [List.all_eq_true] using hdig
    simp [parseU32, hplus, hdig', hlt]
    exact fun x hx => hdig' x (by simp [hx])

theorem splitOn_ne_nil (p : Char → Bool) : ∀ (l : Line), splitOn p l ≠ []
  | [] => by simp [splitOn]
  | c :: rest => by
    rw [splitOn]
    split
    · simp
    · split <;> simp

theorem splitOn_app_nosep (p : Char → Bool) (a : Line) (b piece : Line)
    (more : List Line) (h : ∀ c ∈ a, p c = false)
    (hb : splitOn p b = piece :: more) :
    splitOn p (a ++ b) = (a ++ piece) :: more := by
  induction a with
  | nil => simpa using hb
  | cons c a' ih =>
    have hc : p c = false := h c (by simp)
    rw [List.cons_append, splitOn]
    rw [if_neg (by simp [hc])]
    rw [ih fun x hx => h x (by simp [hx])]
    rfl

theorem mapM_ok_length {A B : Type} (f : A → Except String B) :
    ∀ (xs : List A) (ys : List B), xs.mapM f = .ok ys → ys.length = xs.length
  | [], ys, h => by
    rw [List.mapM_nil] at h
    cases h
    rfl
  | x :: xs, ys, h => by
    rw [List.mapM_cons] at h
    obtain ⟨b, -, h⟩ := bind_ok_destruct h
    obtain ⟨bs, hbs, h⟩ := bind_ok_destruct h
    cases h
    simp [mapM_ok_length f xs bs hbs]

theorem two_le_splitOn (l : Line) (hc : l.contains '(' = true) :
    2 ≤ (splitOn (fun c => c == '(' || c == ')') l).length := by
  induction l with
  | nil => exact absurd hc (by decide)
  | cons c rest ih =>
    by_cases hpc : (c == '(' || c == ')') = true
    · rw [splitOn, if_pos hpc]
      have := splitOn_ne_nil (fun c => c == '(' || c == ')') rest
      have hlen : 1 ≤ (splitOn (fun c => c == '(' || c == ')') rest).length :=
        List.length_pos.mpr this
      simp only [List.length_cons]
      omega
    · have hcl : (c == '(') = false := by
        cases h1 : c == '('
        · rfl
        · exact absurd (by simp [h1]) hpc
      have hcrest : rest.contains '(' = true := by
        have : List.elem '(' (c :: rest) = true := hc
        rw [List.elem] at this
        have hsym : ('(' == c) = false := by
          cases h2 : '(' == c
          · rfl
          · exfalso
            have := eq_of_beq h2
            rw [← this] at hcl
            simp at hcl
        rw [hsym] at this
        exact this
      rw [splitOn, if_neg (by simp [hpc])]
      cases e : splitOn (fun c => c == '(' || c == ')') rest with
      | nil => exact absurd e (splitOn_ne_nil _ rest)
      | cons piece more =>
        have := ih hcrest
        rw [e] at this
        simpa using this

theorem trim_digits (ds : Line) (hdig : ∀ x ∈ ds, x.isDigit = true) :
    trimL ds = ds := by
  have hws : ∀ x ∈ ds, isWs x = false := fun x hx => digit_not_ws x (hdig x hx)
  have hwsr : ∀ x ∈ ds.reverse, isWs x = false := by
    intro x hx
    exact hws x (List.mem_reverse.mp hx)
  simp only [trimL]
  rw [dropWhile_none hws, dropWhile_none hwsr, List.reverse_reverse]

theorem trim_digits_space (ds : Line) (hne : ds ≠ [])
    (hdig : ∀ x ∈ ds, x.isDigit = true) : trimL (ds ++ [' ']) = ds := by
  cases ds with
  | nil => exact absurd rfl hne
  | cons d ds' =>
    have hd : d.isDigit = true := hdig d (by simp)
    have e1 : ((d :: ds') ++ [' ']).dropWhile isWs = (d :: ds') ++ [' '] := by
      rw [List.cons_append, List.dropWhile_cons, digit_not_ws d hd]
      simp
    have hwsr : ∀ x ∈ ds'.reverse ++ [d], isWs x = false := by
      intro x hx
      apply digit_not_ws
      apply hdig
      rcases List.mem_append.mp hx with hm | hm
      · simp [List.mem_reverse.mp hm]
      · simp at hm
        simp [hm]
    simp only [trimL]
    rw [e1, List.reverse_append]
    simp only [List.reverse_cons, List.reverse_nil, List.nil_append,
      List.singleton_append, List.dropWhile_cons]
    rw [show isWs ' ' = true from rfl]
    simp only [if_true]
    rw [dropWhile_none hwsr]
    simp [List.reverse_append]

theorem cases_re_digits (ds : Line) (hne : ds ≠ [])
    (hdig : ds.all Char.isDigit = true) : cases_re_match ds = true := by
  cases ds with
  | nil => exact absurd rfl hne
  | cons d ds' =>
    have hdig' : ∀ x ∈ d :: ds', x.isDigit = true := by
      simpa [List.all_eq_true] using hdig
    have hws : ∀ x ∈ d :: ds', isWs x = false :=
      fun x hx => digit_not_ws x (hdig' x hx)
    have e1 : (d :: ds').dropWhile isWs = d :: ds' := dropWhile_none hws
    have e2 : (d :: ds').takeWhile Char.isDigit = d :: ds' :=
      takeWhile_all hdig'
    have e3 : (d :: ds').dropWhile Char.isDigit = [] := dropWhile_all hdig'
    simp only [cases_re_match]
    rw [e1, e2, e3]
    simp

theorem cases_re_pair (ds1 ds2 : Line) (h1 : ds1 ≠ []) (h2 : ds2 ≠ [])
    (hd1 : ds1.all Char.isDigit = true) (hd2 : ds2.all Char.isDigit = true) :
    cases_re_match (ds1 ++ ' ' :: '(' :: (ds2 ++ [')'])) = true := by
  obtain ⟨d, ds1', rfl⟩ : ∃ d t, ds1 = d :: t := by
    cases ds1 with
    | nil => exact absurd rfl h1
    | cons d t => exact ⟨d, t, rfl⟩
  have hdig1 : ∀ x ∈ d :: ds1', x.isDigit = true := by
    simpa [List.all_eq_true] using hd1
  have hdig2 : ∀ x ∈ ds2, x.isDigit = true := by
    simpa [List.all_eq_true] using hd2
  have e1 : ((d :: ds1') ++ ' ' :: '(' :: (ds2 ++ [')'])).dropWhile isWs =
      (d :: ds1') ++ ' ' :: '(' :: (ds2 ++ [')']) := by
    rw [List.cons_append, List.dropWhile_cons,
      digit_not_ws d (hdig1 d (by simp))]
    simp
  have e2 : ((d :: ds1') ++ ' ' :: '(' :: (ds2 ++ [')'])).takeWhile
      Char.isDigit = d :: ds1' :=
    takeWhile_app_stop _ _ _ hdig1 (by decide)
  have e3 : ((d :: ds1') ++ ' ' :: '(' :: (ds2 ++ [')'])).dropWhile
      Char.isDigit = ' ' :: '(' :: (ds2 ++ [')']) :=
    dropWhile_app_stop _ _ _ hdig1 (by decide)
  have e4 : (' ' :: '(' :: (ds2 ++ [')'])).takeWhile isWs = [' '] := by
    rw [List.takeWhile_cons, show isWs ' ' = true from rfl]
    simp [List.takeWhile_cons, show isWs '(' = false from rfl]
  have e5 : (' ' :: '(' :: (ds2 ++ [')'])).dropWhile isWs =
      '(' :: (ds2 ++ [')']) := by
    rw [List.dropWhile_cons, show isWs ' ' = true from rfl]
    simp [List.dropWhile_cons, show isWs '(' = false from rfl]
  have e6 : (ds2 ++ [')']).dropWhile isWs = ds2 ++ [')'] := by
    cases ds2 with
    | nil => exact absurd rfl h2
    | cons e t =>
      rw [List.cons_append, List.dropWhile_cons,
        digit_not_ws e (hdig2 e (by simp))]
      simp
  have e7 : (ds2 ++ [')']).takeWhile Char.isDigit = ds2 := by
    have : ds2 ++ [')'] = ds2 ++ ')' :: [] := rfl
    rw [this]
    exact takeWhile_app_stop _ _ _ hdig2 (by decide)
  have e8 : (ds2 ++ [')']).dropWhile Char.isDigit = [')'] := by
    have : ds2 ++ [')'] = ds2 ++ ')' :: [] := rfl
    rw [this]
    exact dropWhile_app_stop _ _ _ hdig2 (by decide)
  simp only [cases_re_match]
  rw [e1, e2, e3, e4, e5]
  simp only [List.head?_cons, List.tail_cons]
  rw [e6, e7, e8]
  simp [show isWs ')' = false from rfl, h2]

theorem parseCount_digits (ds : Line) (hne : ds ≠ [])
    (hdig : ds.all Char.isDigit = true) (hlt : digitsVal ds < 4294967296) :
    parseCount ds = .ok [digitsVal ds] := by
  have hcont : ds.contains '(' = false := digits_contains_paren ds hdig
  simp only [parseCount]
  rw [if_neg (by rw [hcont]; decide)]
  rw [parseU32_digits ds hne hdig hlt]

theorem parseCount_pair (ds1 ds2 : Line) (h1 : ds1 ≠ []) (h2 : ds2 ≠ [])
    (hd1 : ds1.all Char.isDigit = true) (hd2 : ds2.all Char.isDigit = true)
    (hv1 : digitsVal ds1 < 4294967296) (hv2 : digitsVal ds2 < 4294967296) :
    parseCount (ds1 ++ ' ' :: '(' :: (ds2 ++ [')'])) =
      .ok [digitsVal ds1, digitsVal ds2] := by
  have hdig1 : ∀ x ∈ ds1, x.isDigit = true := by
    simpa [List.all_eq_true] using hd1
  have hdig2 : ∀ x ∈ ds2, x.isDigit = true := by
    simpa [List.all_eq_true] using hd2
  have hcont : (ds1 ++ ' ' :: '(' :: (ds2 ++ [')'])).contains '(' = true :=
    contains_of_mem _ _ (by simp)
  have hb2 : splitOn (fun c => c == '(' || c == ')') [')'] = [[], []] := by
    decide
  have hnosep2 : ∀ c ∈ ds2, (c == '(' || c == ')') = false := by
    intro c hc
    rw [digit_ne c '(' (hdig2 c hc) (by decide),
      digit_ne c ')' (hdig2 c hc) (by decide)]
    rfl
  have hsplit2 : splitOn (fun c => c == '(' || c == ')') (ds2 ++ [')']) =
      (ds2 ++ []) :: [[]] :=
    splitOn_app_nosep _ ds2 [')'] [] [[]] hnosep2 hb2
  have hb : splitOn (fun c => c == '(' || c == ')') ('(' :: (ds2 ++ [')'])) =
      [] :: ((ds2 ++ []) :: [[]]) := by
    rw [splitOn, if_pos (by decide)]
    rw [hsplit2]
  have hnosep1 : ∀ c ∈ ds1 ++ [' '], (c == '(' || c == ')') = false := by
    intro c hc
    rcases List.mem_append.mp hc with hm | hm
    · rw [digit_ne c '(' (hdig1 c hm) (by decide),
        digit_ne c ')' (hdig1 c hm) (by decide)]
      rfl
    · simp at hm
      subst hm
      rfl
  have happ : ds1 ++ ' ' :: '(' :: (ds2 ++ [')']) =
      (ds1 ++ [' ']) ++ ('(' :: (ds2 ++ [')'])) := by simp
  have hsplit : splitOn (fun c => c == '(' || c == ')')
      (ds1 ++ ' ' :: '(' :: (ds2 ++ [')'])) =
      ((ds1 ++ [' ']) ++ []) :: ((ds2 ++ []) :: [[]]) := by
    rw [happ]
    exact splitOn_app_nosep _ (ds1 ++ [' ']) _ [] _ hnosep1 hb
  simp only [parseCount]
  rw [if_pos (by simp [hcont])]
  rw [hsplit]
  simp only [List.append_nil]
  rw [show ((ds1 ++ [' ']) :: ds2 :: [[]]).take 2 = [ds1 ++ [' '], ds2]
    from rfl]
  simp only [List.mapM_cons, List.mapM_nil]
  rw [trim_digits_space ds1 h1 hdig1, trim_digits ds2 hdig2]
  rw [parseU32_digits ds1 h1 hd1 hv1, parseU32_digits ds2 h2 hd2 hv2]
  rfl

theorem parseCount_len (l : Line) (g : List Nat)
    (h : parseCount l = .ok g) : g.length = 1 ∨ g.length = 2 := by
  rw [parseCount] at h
  by_cases hc : l.contains '(' = true
  · rw [if_pos hc] at h
    right
    have hlen2 := two_le_splitOn l hc
    have hys := mapM_ok_length _ _ _ h
    rw [hys, List.length_take]
    omega
  · rw [if_neg (by simpa using hc)] at h
    cases hp : parseU32 l with
    | none =>
      rw [hp] at h
      exact absurd h (by simp)
    | some v =>
      rw [hp] at h
      cases h
      exact Or.inl rfl

/-- Counterexample to claim C6: the line `" 1"` (leading whitespace)
matches the count-cell pattern, yet the batcher's parse of it is the
fatal `failed to parse` error — it yields no CountGroup at all, because
the bare-integer arm parses the raw line without trimming. -/
theorem claim_C6_cex :
    cases_re_match (str " 1") = true ∧
      parseCount (str " 1") = .error "failed to parse: \" 1\"" := by
  decide

/-- Claim C6 (amended): every successful parse of a line by the batcher
yields a CountGroup of length 1 or 2 and never any other length; and for
lines matching the count-cell pattern that carry no surrounding
whitespace (as holds for every line in the pipeline, which trims all
lines on entry) and whose numeric tokens fit in a 32-bit unsigned
integer, a bare digit string `N` parses to the 1-element group `[N]` and
a line of the form `"N (M)"` parses to the 2-element group `[N, M]` with
the outside-parentheses value first. -/
theorem claim_C6 :
    (∀ (l : Line) (g : List Nat), parseCount l = .ok g →
      g.length = 1 ∨ g.length = 2)
    ∧ (∀ ds : Line, ds ≠ [] → ds.all Char.isDigit = true →
        digitsVal ds < 4294967296 →
        parseCount ds = .ok [digitsVal ds] ∧ cases_re_match ds = true)
    ∧ (∀ ds1 ds2 : Line, ds1 ≠ [] → ds2 ≠ [] →
        ds1.all Char.isDigit = true → ds2.all Char.isDigit = true →
        digitsVal ds1 < 4294967296 → digitsVal ds2 < 4294967296 →
        parseCount (ds1 ++ ' ' :: '(' :: (ds2 ++ [')'])) =
          .ok [digitsVal ds1, digitsVal ds2]
        ∧ cases_re_match (ds1 ++ ' ' :: '(' :: (ds2 ++ [')'])) = true) := by
  refine ⟨parseCount_len, ?_, ?_⟩
  · intro ds hne hdig hlt
    exact ⟨parseCount_digits ds hne hdig hlt, cases_re_digits ds hne hdig⟩
  · intro ds1 ds2 h1 h2 hd1 hd2 hv1 hv2
    exact ⟨parseCount_pair ds1 ds2 h1 h2 hd1 hd2 hv1 hv2,
      cases_re_pair ds1 ds2 h1 h2 hd1 hd2⟩

/-- Witness for C6 at the concrete lines `"12"` and `"67800 (100)"`. -/
theorem claim_C6_witness :
    parseCount (str "12") = .ok [12]
    ∧ parseCount (str "67800 (100)") = .ok [67800, 100] :=
  ⟨(claim_C6.2.1 (str "12") (by decide) (by decide) (by decide)).1,
   (claim_C6.2.2 (str "67800") (str "100") (by decide) (by decide)
      (by decide) (by decide) (by decide) (by decide)).1⟩

end CovidReports
